import Mathlib

/-!
Verification development for the fuzzy multilingual search engine of the
smart_library_bot repository.  Strings are modelled as `List Char`, JS
numbers as `ℚ`, and the asynchronous orchestration as a pure function from
(query, options, fetched candidate list, cache state) to (results, cache
state).  The SQL fetch is external input (`allBooks` is the list returned by
`db.all`), and the locale-aware comparator backing
`String.prototype.localeCompare` is a parameter `lc` of the model.
-/

/-! ### Text normalizer (src/advanced_search.js) -/

/-- First-match substitution through a finite character table: the shape
shared by the `indexOf`-based digit lookup and the chain of
single-character `replace` calls. -/
def chainFold : List (Char × Char) → Char → Char
  | [], c => c
  | (a, b) :: t, c => if c = a then b else chainFold t c

/-- The parallel lookup strings of `convertToEnglishDigits` (`arabicDigits`,
`persianDigits` against `englishDigits`), as the substitution table the
per-character `indexOf` scan realizes. -/
def digitTable : List (Char × Char) :=
  [('٠', '0'), ('١', '1'), ('٢', '2'), ('٣', '3'), ('٤', '4'),
   ('٥', '5'), ('٦', '6'), ('٧', '7'), ('٨', '8'), ('٩', '9'),
   ('۰', '0'), ('۱', '1'), ('۲', '2'), ('۳', '3'), ('۴', '4'),
   ('۵', '5'), ('۶', '6'), ('۷', '7'), ('۸', '8'), ('۹', '9')]

/-- Character-level digit folding of `convertToEnglishDigits`: a character
in the Arabic-Indic or Extended Arabic-Indic digit block maps to the ASCII
digit at the matching index; all other characters pass through unchanged. -/
def digitFold (c : Char) : Char := chainFold digitTable c

/-- `convertToEnglishDigits`: character-by-character digit folding. -/
def convertToEnglishDigits (inputStr : List Char) : List Char :=
  inputStr.map digitFold

/-- The variant-folding table of `normalizePersianArabicChars`.  The source
applies seven global single-character `replace` calls in sequence; since no
replacement target is itself replaced by a later rule, the sequence acts as
one per-character first-match substitution. -/
def variantTable : List (Char × Char) :=
  [('ک', 'ك'), ('ی', 'ي'), ('ى', 'ي'), ('ئ', 'ي'), ('ؤ', 'و'),
   ('إ', 'ا'), ('أ', 'ا'), ('آ', 'ا'), ('ة', 'ه')]

/-- Character-level variant folding of `normalizePersianArabicChars`. -/
def foldChar (c : Char) : Char := chainFold variantTable c

/-- JavaScript `String.prototype.trim` whitespace class (the characters
relevant to this codebase: space, tab, LF, VT, FF, CR, NBSP). -/
def isJsSpace (c : Char) : Bool :=
  c = ' ' || c = '\t' || c = '\n' || c = '\r' || c.toNat = 11 || c.toNat = 12 ||
    c.toNat = 160

/-- Trailing-whitespace removal. -/
def trimRight (l : List Char) : List Char :=
  (l.reverse.dropWhile isJsSpace).reverse

/-- JavaScript `trim`: drop leading and trailing whitespace. -/
def trimChars (l : List Char) : List Char :=
  trimRight (l.dropWhile isJsSpace)

/-- `normalizePersianArabicChars`: the seven variant-folding replaces
followed by `trim`. -/
def normalizePersianArabicChars (text : List Char) : List Char :=
  trimChars (text.map foldChar)

/-- The query normalization used by `advancedSearch` (line 150):
`convertToEnglishDigits(normalizePersianArabicChars(query))`. -/
def normalizeQuery (query : List Char) : List Char :=
  convertToEnglishDigits (normalizePersianArabicChars query)

/-! ### Similarity scorer (src/advanced_search.js) -/

/-- JS `toLowerCase`, restricted to the per-character case map (the catalog
text is Arabic/Persian, which is caseless; ASCII letters are lowered). -/
def toLowerList (l : List Char) : List Char :=
  l.map Char.toLower

/-- `s1.startsWith(s2)` on character lists: `leadsWith s p` is true when
`p` is an initial segment of `s`. -/
def leadsWith : List Char → List Char → Bool
  | _, [] => true
  | [], _ :: _ => false
  | c :: s, d :: p => c == d && leadsWith s p

/-- `s.includes(sub)`: some suffix of `s` starts with `sub`. -/
def containsSub : List Char → List Char → Bool
  | [], sub => leadsWith [] sub
  | c :: t, sub => leadsWith (c :: t) sub || containsSub t sub

/-- Helper realizing one row step of the Levenshtein recurrence: given the
head character `x` of the first string and the distance function
`f = levenshteinDistance xs` for its tail, computes
`levenshteinDistance (x :: xs)` by structural recursion on the second
string (so `levAux x f [] = f [] + 1 = xs.length + 1`). -/
def levAux (x : Char) (f : List Char → Nat) : List Char → Nat
  | [] => f [] + 1
  | y :: ys =>
    if x = y then f ys
    else min (min (f (y :: ys)) (levAux x f ys)) (f ys) + 1

/-- `levenshteinDistance`: the source fills the (m+1)×(n+1) dynamic
programming table `dp` with `dp[i][0] = i`, `dp[0][j] = j` and
`dp[i][j] = dp[i-1][j-1]` on equal characters, else
`min(dp[i-1][j], dp[i][j-1], dp[i-1][j-1]) + 1`; this is the memoised form
of the recurrence
`lev (x::xs) (y::ys) = if x = y then lev xs ys else
 min (min (lev xs (y::ys)) (lev (x::xs) ys)) (lev xs ys) + 1`
with `lev [] ys = ys.length` and `lev xs [] = xs.length`, realized below
by structural recursion (see `levenshteinDistance_cons_cons`). -/
def levenshteinDistance : List Char → List Char → Nat
  | [], ys => ys.length
  | x :: xs, ys => levAux x (levenshteinDistance xs) ys

/-- `calculateSimilarity`: exact match 1.0, mutual-prefix 0.9, mutual
substring 0.7, otherwise `1 - distance / maxLen`. -/
def calculateSimilarity (str1 str2 : List Char) : ℚ :=
  let s1 := toLowerList str1
  let s2 := toLowerList str2
  if s1 = s2 then 1
  else if leadsWith s1 s2 || leadsWith s2 s1 then 9/10
  else if containsSub s1 s2 || containsSub s2 s1 then 7/10
  else 1 - (levenshteinDistance s1 s2 : ℚ) / (max s1.length s2.length : ℚ)

/-! ### Configuration (src/config, search section) -/

def weightBookName : ℚ := 7/10
def weightAuthorName : ℚ := 3/10
def fuzzyThreshold : ℚ := 3/10
def maxSimilarResults : Nat := 10
def cacheEnabled : Bool := true

/-! ### Catalog entries -/

/-- A row of `usol_books` as consumed by the search logic, together with
the `score` field that the orchestrator adds by object spread (rows coming
from the database carry a default score of 0; the pass-through columns
`file_path`, `emergency_file_path`, `total_requests` play no role in the
search logic and are omitted). -/
structure Book where
  id : Nat
  book_name : List Char
  author_name : List Char
  category : String
  request_count : ℚ
  score : ℚ
deriving DecidableEq

/-- `scoreBook`: weighted title/author similarity against the (lower-cased,
variant-folded) query plus the popularity boost `min(request_count/100, 0.1)`. -/
def scoreBook (book : Book) (query : List Char) : ℚ :=
  let normalizedQuery := normalizePersianArabicChars (toLowerList query)
  let normalizedBookName := normalizePersianArabicChars (toLowerList book.book_name)
  let normalizedAuthorName := normalizePersianArabicChars (toLowerList book.author_name)
  let bookNameScore := calculateSimilarity normalizedBookName normalizedQuery
  let authorNameScore := calculateSimilarity normalizedAuthorName normalizedQuery
  let totalScore := bookNameScore * weightBookName + authorNameScore * weightAuthorName
  let popularityBoost := min (book.request_count / 100) (1/10)
  totalScore + popularityBoost

/-! ### Search cache (src: search cache module) -/

/-- A JSON value as it occurs in a search-options object (the options ever
passed are strings, numbers, or null). -/
inductive JVal where
  | jstr : String → JVal
  | jnum : Int → JVal
  | jnull : JVal
deriving DecidableEq

/-- The dynamic `options` object: an insertion-ordered field list, which is
exactly the data `JSON.stringify` consumes. -/
abbrev SearchOptions := List (String × JVal)

/-- Rendering of one JSON value (the option values in this codebase contain
no characters that `JSON.stringify` would escape). -/
def jvalToStr : JVal → String
  | JVal.jstr s => "\"" ++ s ++ "\""
  | JVal.jnum n => toString n
  | JVal.jnull => "null"

/-- `JSON.stringify` on a flat object: fields in insertion order. -/
def jsonStringify (o : SearchOptions) : String :=
  "\x7b" ++ String.intercalate ","
      (o.map (fun p => "\"" ++ p.1 ++ "\":" ++ jvalToStr p.2)) ++ "\x7d"

/-- `generateSearchKey(query, options)`:
`"search:" + query + ":" + JSON.stringify(options)`. -/
def generateSearchKey (query : String) (options : SearchOptions) : String :=
  "search:" ++ query ++ ":" ++ jsonStringify options

/-- The cache contents: key/value association (NodeCache's TTL expiry and
key-capacity eviction are time/size liveness concerns outside the scope of
the verified claims; within one search the cache behaves as this map). -/
abbrev Cache := List (String × List Book)

/-- `get`: `undefined` when caching is disabled, else the stored value.
(`advancedSearch` treats any stored array — even an empty one — as a hit,
since arrays are truthy.) -/
def cacheGet (key : String) (c : Cache) : Option (List Book) :=
  if cacheEnabled then c.lookup key else none

/-- `set`: insert/overwrite the value for `key` (no-op when disabled). -/
def cacheSet (key : String) (value : List Book) (c : Cache) : Cache :=
  if cacheEnabled then (key, value) :: c.filter (fun p => p.1 != key) else c

/-! ### Cache statistics (`getStats`) -/

/-- The record returned by `getStats` (the nested NodeCache-internal
`size` report is omitted). -/
structure CacheStatsR where
  hits : Nat
  misses : Nat
  hitRate : String
  keys : Nat
deriving DecidableEq

/-- The number computed inside `getStats` before formatting:
`(hits / (hits + misses)) * 100`. -/
def hitRateValue (hits misses : Nat) : ℚ :=
  ((hits : ℚ) / ((hits : ℚ) + (misses : ℚ))) * 100

/-- `Number.prototype.toFixed(2)`: round to the nearest hundredth (ties
up, the idealization of the float behaviour) and render with exactly two
decimals. -/
def toFixedTwo (q : ℚ) : String :=
  let n := (round (q * 100)).toNat
  toString (n / 100) ++ "." ++ (if n % 100 < 10 then "0" else "") ++ toString (n % 100)

/-- `getStats()` as a function of the module-level counters and the current
key count: `hitRate` is the percentage string
`((hits / (hits + misses)) * 100).toFixed(2) + "%"`, or `"0%"` when no get
has been counted. -/
def getStats (hits misses keyCount : Nat) : CacheStatsR :=
  { hits := hits
    misses := misses
    hitRate :=
      if 0 < hits + misses then toFixedTwo (hitRateValue hits misses) ++ "%" else "0%"
    keys := keyCount }

/-! ### Search orchestrator (`advancedSearch`) -/

/-- Destructuring `const { sortBy = "relevance" } = options`: any
non-string (or missing) value falls through to the relevance comparison
branch exactly as the string `"relevance"` does. -/
def getSortBy (options : SearchOptions) : String :=
  match options.lookup "sortBy" with
  | some (JVal.jstr s) => s
  | _ => "relevance"

/-- Destructuring `const { limit = config.search.maxSimilarResults } = options`. -/
def getLimit (options : SearchOptions) : Int :=
  match options.lookup "limit" with
  | some (JVal.jnum n) => n
  | _ => (maxSimilarResults : Int)

/-- `array.slice(0, limit)`: a negative limit counts from the end, clamped
at zero; a limit beyond the length returns the whole list. -/
def sliceTo (limit : Int) (l : List α) : List α :=
  l.take (if limit < 0 then ((l.length : Int) + limit).toNat else limit.toNat)

/-- The regular expression `/^\d+$/`: one or more ASCII digits. -/
def isAllDigits (l : List Char) : Bool :=
  !l.isEmpty && l.all Char.isDigit

/-- `parseInt` on a string of ASCII digits. -/
def natOfDigits (l : List Char) : Nat :=
  l.foldl (fun a c => a * 10 + (c.toNat - 48)) 0

/-- Order induced by the comparator `(a, b) => b.request_count - a.request_count`:
`a` may precede `b` exactly when the comparator is non-positive. -/
def popLe (a b : Book) : Prop := b.request_count ≤ a.request_count

instance : DecidableRel popLe :=
  fun a b => inferInstanceAs (Decidable (b.request_count ≤ a.request_count))

/-- Order induced by `(a, b) => a.book_name.localeCompare(b.book_name)`
for an ambient locale comparator `lc`. -/
def nameLe (lc : List Char → List Char → Int) (a b : Book) : Prop :=
  lc a.book_name b.book_name ≤ 0

instance (lc : List Char → List Char → Int) : DecidableRel (nameLe lc) :=
  fun a b => inferInstanceAs (Decidable (lc a.book_name b.book_name ≤ 0))

/-- Order induced by the comparator `(a, b) => b.score - a.score`. -/
def relLe (a b : Book) : Prop := b.score ≤ a.score

instance : DecidableRel relLe :=
  fun a b => inferInstanceAs (Decidable (b.score ≤ a.score))

/-- The three-way `filteredBooks.sort(...)` dispatch of lines 213-221; a
comparator-correct JS sort returns a permutation ordered by the
comparator. -/
def sortBooks (lc : List Char → List Char → Int) (sortBy : String)
    (l : List Book) : List Book :=
  if sortBy = "popularity" then List.insertionSort popLe l
  else if sortBy = "name" then List.insertionSort (nameLe lc) l
  else List.insertionSort relLe l

/-- "Ordered according to options.sortBy": non-increasing request counts
for `"popularity"`, non-decreasing titles under the locale comparator for
`"name"`, non-increasing computed scores otherwise. -/
def orderedAsRequested (lc : List Char → List Char → Int) (sortBy : String)
    (nq : List Char) (l : List Book) : Prop :=
  if sortBy = "popularity" then l.Pairwise popLe
  else if sortBy = "name" then l.Pairwise (nameLe lc)
  else l.Pairwise (fun a b => scoreBook b nq ≤ scoreBook a nq)

/-- Lines 203-224 of `advancedSearch`: score every candidate (object
spread adding `score`), filter by `score >= config.search.fuzzyThreshold`,
sort by the requested mode, truncate with `slice(0, limit)`. -/
def searchPipeline (lc : List Char → List Char → Int) (normalizedQuery : List Char)
    (sortBy : String) (limit : Int) (allBooks : List Book) : List Book :=
  let scoredBooks := allBooks.map
    (fun book => { book with score := scoreBook book normalizedQuery })
  let filteredBooks := scoredBooks.filter (fun book => decide (fuzzyThreshold ≤ book.score))
  let sorted := sortBooks lc sortBy filteredBooks
  sliceTo limit sorted

/-- `advancedSearch(query, options)` as a pure state-passing function.
`allBooks` is the candidate list returned by the storage fetch (the SQL
query with any category/author constraints runs in the storage
collaborator), `cache` is the cache state, and the returned pair is
(results, cache state after the call). -/
def advancedSearch (lc : List Char → List Char → Int) (query : List Char)
    (options : SearchOptions) (allBooks : List Book) (cache : Cache) :
    List Book × Cache :=
  let normalizedQuery := normalizeQuery query
  let cacheKey := generateSearchKey (String.mk normalizedQuery) options
  match cacheGet cacheKey cache with
  | some cachedResult => (cachedResult, cache)
  | none =>
    if allBooks.isEmpty then ([], cache)
    else
      match (if isAllDigits normalizedQuery then
          allBooks.find? (fun book => book.id == natOfDigits normalizedQuery)
        else none) with
      | some exactMatch => ([exactMatch], cacheSet cacheKey [exactMatch] cache)
      | none =>
        let results := searchPipeline lc normalizedQuery (getSortBy options)
          (getLimit options) allBooks
        (results, cacheSet cacheKey results cache)

/-! ### Fallible scoring (for the error-handling claim): a raw storage row
may be malformed, with a missing (`undefined`/`NULL`) name field; accessing
`.toLowerCase()` on it throws a `TypeError`. -/

/-- A storage row as scoring sees it, before any well-formedness
assumption. -/
structure RawBook where
  id : Nat
  book_name : Option (List Char)
  author_name : Option (List Char)
  request_count : ℚ
deriving DecidableEq

/-- `scoreBook` on a raw row: evaluating `book.book_name.toLowerCase()`
(or the author analogue) on a missing field throws. -/
def scoreBookE (book : RawBook) (query : List Char) : Except String ℚ :=
  match book.book_name with
  | none => Except.error "TypeError: book_name is undefined"
  | some bn =>
    match book.author_name with
    | none => Except.error "TypeError: author_name is undefined"
    | some an =>
      Except.ok (scoreBook ⟨book.id, bn, an, "", book.request_count, 0⟩ query)

/-- The scoring stage `allBooks.map((book) => ({...book, score: scoreBook(book, q)}))`
over raw rows: an exception thrown for any element propagates out of the
map (the surrounding `catch` logs and rethrows), aborting the search. -/
def scoreStage (books : List RawBook) (normalizedQuery : List Char) :
    Except String (List (RawBook × ℚ)) :=
  books.mapM (fun book => (scoreBookE book normalizedQuery).map (fun s => (book, s)))

/-! ### A concrete locale comparator for witnesses: code-point
lexicographic three-way comparison, a total transitive comparator of the
shape `localeCompare` provides. -/

def cmpChars : List Char → List Char → Int
  | [], [] => 0
  | [], _ :: _ => -1
  | _ :: _, [] => 1
  | a :: as, b :: bs => if a < b then -1 else if b < a then 1 else cmpChars as bs

/-- Equation lemma exposing the textbook Levenshtein recurrence satisfied
by the structural realization above. -/
theorem levenshteinDistance_cons_cons (x y : Char) (xs ys : List Char) :
    levenshteinDistance (x :: xs) (y :: ys) =
      if x = y then levenshteinDistance xs ys
      else
        min (min (levenshteinDistance xs (y :: ys)) (levenshteinDistance (x :: xs) ys))
          (levenshteinDistance xs ys) + 1 := rfl

theorem levenshteinDistance_nil_right :
    ∀ xs : List Char, levenshteinDistance xs [] = xs.length := by
  intro xs
  induction xs with
  | nil => rfl
  | cons x xs ih => simp [levenshteinDistance, levAux, ih]

example : normalizeQuery [' ', '١', '٢', '٣', ' '] = ['1', '2', '3'] := by decide
example : calculateSimilarity ['a', 'b'] ['a', 'b'] = 1 := rfl
example : calculateSimilarity ['a', 'b', 'c'] ['a', 'b'] = 9/10 := rfl
example : calculateSimilarity ['x', 'a', 'b'] ['a', 'b'] = 7/10 := rfl
example : levenshteinDistance ['a', 'b'] ['a', 'c'] = 1 := by decide
example : levenshteinDistance ['c', 'a', 'b'] ['a', 'b', 'c'] = 2 := by decide

/-! ### Character-level facts about the normalizer -/

theorem chainFold_eq_self (table : List (Char × Char)) (c : Char)
    (h : c ∉ table.map Prod.fst) : chainFold table c = c := by
  induction table with
  | nil => rfl
  | cons p t ih =>
    obtain ⟨a, b⟩ := p
    simp only [List.map_cons, List.mem_cons] at h
    push_neg at h
    show (if c = a then b else chainFold t c) = c
    rw [if_neg h.1]
    exact ih h.2

theorem chainFold_or (table : List (Char × Char)) (c : Char) :
    chainFold table c = c ∨
      (c ∈ table.map Prod.fst ∧ chainFold table c ∈ table.map Prod.snd) := by
  induction table with
  | nil => exact Or.inl rfl
  | cons p t ih =>
    obtain ⟨a, b⟩ := p
    by_cases hc : c = a
    · refine Or.inr ⟨by simp [hc], ?_⟩
      show (if c = a then b else chainFold t c) ∈ _
      rw [if_pos hc]
      simp
    · rcases ih with h | ⟨h1, h2⟩
      · refine Or.inl ?_
        show (if c = a then b else chainFold t c) = c
        rw [if_neg hc]
        exact h
      · refine Or.inr ⟨by simp [h1], ?_⟩
        show (if c = a then b else chainFold t c) ∈ _
        rw [if_neg hc]
        simp [h2]

/-- A character satisfying a predicate that fails on every key of the
table passes through the fold unchanged. -/
theorem chainFold_eq_of_pred (table : List (Char × Char)) (P : Char → Bool)
    (hkeys : ∀ k ∈ table.map Prod.fst, P k = false) (c : Char)
    (hc : P c = true) : chainFold table c = c := by
  refine chainFold_eq_self table c (fun hmem => ?_)
  rw [hkeys c hmem] at hc
  cases hc

theorem digitFold_of_isDigit (c : Char) (h : c.isDigit = true) : digitFold c = c :=
  chainFold_eq_of_pred digitTable Char.isDigit (by decide) c h

theorem foldChar_of_isDigit (c : Char) (h : c.isDigit = true) : foldChar c = c :=
  chainFold_eq_of_pred variantTable Char.isDigit (by decide) c h

theorem foldChar_idem (c : Char) : foldChar (foldChar c) = foldChar c := by
  rcases chainFold_or variantTable c with h | ⟨_, hv⟩
  · unfold foldChar
    rw [h, h]
  · refine chainFold_eq_self variantTable _ (fun hmem => ?_)
    have hdisj : ∀ v ∈ variantTable.map Prod.snd, v ∉ variantTable.map Prod.fst := by
      decide
    exact hdisj _ hv hmem

theorem digitFold_idem (c : Char) : digitFold (digitFold c) = digitFold c := by
  rcases chainFold_or digitTable c with h | ⟨_, hv⟩
  · unfold digitFold
    rw [h, h]
  · refine digitFold_of_isDigit _ ?_
    have hdig : ∀ v ∈ digitTable.map Prod.snd, v.isDigit = true := by decide
    exact hdig _ hv

theorem foldChar_digitFold_foldChar (c : Char) :
    foldChar (digitFold (foldChar c)) = digitFold (foldChar c) := by
  rcases chainFold_or digitTable (foldChar c) with h | ⟨_, hv⟩
  · show foldChar (chainFold digitTable (foldChar c)) = chainFold digitTable (foldChar c)
    rw [h]
    exact foldChar_idem c
  · refine foldChar_of_isDigit _ ?_
    have hdig : ∀ v ∈ digitTable.map Prod.snd, v.isDigit = true := by decide
    exact hdig _ hv

theorem isJsSpace_digitFold (c : Char) : isJsSpace (digitFold c) = isJsSpace c := by
  rcases chainFold_or digitTable c with h | ⟨hk, hv⟩
  · unfold digitFold
    rw [h]
  · have h1 : ∀ k ∈ digitTable.map Prod.fst, isJsSpace k = false := by decide
    have h2 : ∀ v ∈ digitTable.map Prod.snd, isJsSpace v = false := by decide
    show isJsSpace (chainFold digitTable c) = isJsSpace c
    rw [h2 _ hv, h1 _ hk]

/-! ### Trim lemmas -/

theorem dropWhile_invariant (p : Char → Bool) (l : List Char) :
    (l.dropWhile p).dropWhile p = l.dropWhile p := by
  induction l with
  | nil => rfl
  | cons a l ih =>
    rw [List.dropWhile_cons]
    split_ifs with h
    · exact ih
    · rw [List.dropWhile_cons, if_neg h]

theorem dropWhile_fix_of_isPre (p : Char → Bool) (t x : List Char)
    (ht : t <+: x) (hx : x.dropWhile p = x) : t.dropWhile p = t := by
  cases t with
  | nil => rfl
  | cons c t =>
    obtain ⟨r, hr⟩ := ht
    have hx0 : x = c :: (t ++ r) := by rw [← hr]; rfl
    subst hx0
    rw [List.dropWhile_cons] at hx ⊢
    split_ifs at hx ⊢ with h
    · exfalso
      have hlen := (List.dropWhile_sublist (l := t ++ r) p).length_le
      rw [hx] at hlen
      simp [List.length_cons] at hlen
    · rfl

theorem trimChars_idem (l : List Char) : trimChars (trimChars l) = trimChars l := by
  set p := isJsSpace with hp
  set x := l.dropWhile p with hx
  have hxfix : x.dropWhile p = x := by rw [hx]; exact dropWhile_invariant p l
  have htdef : trimChars l = (x.reverse.dropWhile p).reverse := rfl
  set t := (x.reverse.dropWhile p).reverse with htt
  have htpre : t <+: x := by
    rw [htt]
    have h1 : x.reverse.dropWhile p <:+ x.reverse := List.dropWhile_suffix p
    have h2 := List.reverse_prefix.mpr h1
    rwa [List.reverse_reverse] at h2
  have htfix : t.dropWhile p = t := dropWhile_fix_of_isPre p t x htpre hxfix
  have htrev : t.reverse.dropWhile p = t.reverse := by
    rw [htt, List.reverse_reverse]
    exact dropWhile_invariant p x.reverse
  show trimChars t = t
  unfold trimChars trimRight
  rw [htfix, htrev, List.reverse_reverse]

theorem trimChars_map_comm (g : Char → Char)
    (hg : ∀ c, isJsSpace (g c) = isJsSpace c) (l : List Char) :
    trimChars (l.map g) = (trimChars l).map g := by
  have hdw : ∀ m : List Char, (m.map g).dropWhile isJsSpace = (m.dropWhile isJsSpace).map g := by
    intro m
    rw [List.dropWhile_map]
    have hfun : (isJsSpace ∘ g) = isJsSpace := funext hg
    rw [hfun]
  unfold trimChars trimRight
  rw [hdw, ← List.map_reverse, hdw, List.map_reverse]

theorem trimChars_sublist (l : List Char) : (trimChars l).Sublist l := by
  unfold trimChars trimRight
  have h1 : (l.dropWhile isJsSpace).reverse.dropWhile isJsSpace <:+
      (l.dropWhile isJsSpace).reverse := List.dropWhile_suffix _
  have h2 := List.reverse_sublist.mpr h1.sublist
  rw [List.reverse_reverse] at h2
  exact h2.trans (List.dropWhile_sublist _)

/-! ### The normalizer is idempotent -/

/-- Claim C7: the normalizer — character-variant folding (with its trim)
composed with digit folding — is idempotent: normalizing twice yields the
same string as normalizing once. -/
theorem normalizeQuery_idem (s : List Char) :
    normalizeQuery (normalizeQuery s) = normalizeQuery s := by
  unfold normalizeQuery convertToEnglishDigits normalizePersianArabicChars
  set f := foldChar
  set g := digitFold
  set t := trimChars (s.map f) with ht
  have step1 : (t.map g).map f = t.map g := by
    rw [List.map_map]
    refine List.map_congr_left ?_
    intro x hx
    have hx2 : x ∈ s.map f := (trimChars_sublist (s.map f)).mem hx
    obtain ⟨c, _, hc⟩ := List.mem_map.mp hx2
    subst hc
    exact foldChar_digitFold_foldChar c
  rw [step1]
  rw [trimChars_map_comm g isJsSpace_digitFold t]
  have step3 : trimChars t = t := by rw [ht]; exact trimChars_idem _
  rw [step3, List.map_map]
  refine List.map_congr_left ?_
  intro x _
  exact digitFold_idem x

/-! ### Levenshtein distance: bounded by the longer length, symmetric -/

theorem levenshteinDistance_le_max :
    ∀ xs ys : List Char, levenshteinDistance xs ys ≤ max xs.length ys.length := by
  intro xs
  induction xs with
  | nil => intro ys; simp [levenshteinDistance]
  | cons x xs ihx =>
    intro ys
    induction ys with
    | nil =>
      rw [levenshteinDistance_nil_right]
      simp
    | cons y ys ihy =>
      rw [levenshteinDistance_cons_cons]
      split_ifs with hxy
      · have h := ihx ys
        simp only [List.length_cons]
        omega
      · have h3 : levenshteinDistance xs ys ≤ max xs.length ys.length := ihx ys
        have hmin : min (min (levenshteinDistance xs (y :: ys))
            (levenshteinDistance (x :: xs) ys)) (levenshteinDistance xs ys) ≤
            levenshteinDistance xs ys := min_le_right _ _
        simp only [List.length_cons]
        omega

theorem levenshteinDistance_comm :
    ∀ xs ys : List Char, levenshteinDistance xs ys = levenshteinDistance ys xs := by
  intro xs
  induction xs with
  | nil =>
    intro ys
    rw [levenshteinDistance_nil_right]
    rfl
  | cons x xs ihx =>
    intro ys
    induction ys with
    | nil =>
      rw [levenshteinDistance_nil_right]
      rfl
    | cons y ys ihy =>
      rw [levenshteinDistance_cons_cons, levenshteinDistance_cons_cons]
      have h1 := ihx (y :: ys)
      have h3 := ihx ys
      by_cases hxy : x = y
      · rw [if_pos hxy, if_pos hxy.symm, h3]
      · rw [if_neg hxy, if_neg (fun h => hxy h.symm)]
        rw [h1, ihy, h3]
        rw [Nat.min_comm (levenshteinDistance (y :: ys) xs) (levenshteinDistance ys (x :: xs))]

/-! ### Similarity: range and symmetry -/

theorem calculateSimilarity_mem_unit (str1 str2 : List Char) :
    0 ≤ calculateSimilarity str1 str2 ∧ calculateSimilarity str1 str2 ≤ 1 := by
  simp only [calculateSimilarity]
  set s1 := toLowerList str1 with hs1
  set s2 := toLowerList str2 with hs2
  split_ifs with h1 h2 h3
  · norm_num
  · norm_num
  · norm_num
  · have hlen : 1 ≤ max s1.length s2.length := by
      rcases Nat.eq_zero_or_pos (max s1.length s2.length) with h | h
      · exfalso
        have : s1.length = 0 ∧ s2.length = 0 := by
          constructor <;> omega
        apply h1
        rw [List.length_eq_zero.mp this.1, List.length_eq_zero.mp this.2]
      · exact h
    have hle := levenshteinDistance_le_max s1 s2
    have hM : (1 : ℚ) ≤ (max s1.length s2.length : ℚ) := by exact_mod_cast hlen
    have hMpos : (0 : ℚ) < (max s1.length s2.length : ℚ) := by linarith
    have hdle : (levenshteinDistance s1 s2 : ℚ) ≤ (max s1.length s2.length : ℚ) := by
      exact_mod_cast hle
    have hdnn : (0 : ℚ) ≤ (levenshteinDistance s1 s2 : ℚ) := by positivity
    constructor
    · have : (levenshteinDistance s1 s2 : ℚ) / (max s1.length s2.length : ℚ) ≤ 1 :=
        (div_le_one hMpos).mpr hdle
      linarith
    · have : 0 ≤ (levenshteinDistance s1 s2 : ℚ) / (max s1.length s2.length : ℚ) :=
        div_nonneg hdnn (le_of_lt hMpos)
      linarith

/-- Claim C10: the similarity function is symmetric as a whole — the
exact-match, mutual-prefix and mutual-substring tests check both
directions, and the edit distance and max-length denominator are symmetric
in their arguments. -/
theorem calculateSimilarity_comm (a b : List Char) :
    calculateSimilarity a b = calculateSimilarity b a := by
  simp only [calculateSimilarity]
  set s1 := toLowerList a
  set s2 := toLowerList b
  refine if_congr eq_comm rfl (if_congr ?_ rfl (if_congr ?_ rfl ?_))
  · rw [Bool.or_comm]
  · rw [Bool.or_comm]
  · rw [levenshteinDistance_comm s1 s2, sup_comm]

/-- The object-spread copy the orchestrator builds does not feed the added
`score` field back into scoring. -/
theorem scoreBook_set_score (b : Book) (s : ℚ) (q : List Char) :
    scoreBook { b with score := s } q = scoreBook b q := rfl

/-- Claim C8: for every book with non-negative request count the total
score lies in [0, 1.1]: each per-field similarity lies in [0, 1] (see
`calculateSimilarity_mem_unit`, which rests on the edit distance never
exceeding the longer length, `levenshteinDistance_le_max`), the weighted
sum with weights 0.7 and 0.3 lies in [0, 1], and the popularity boost
`min(request_count/100, 0.1)` adds at most 0.1. -/
theorem scoreBook_bounds (book : Book) (query : List Char)
    (h : 0 ≤ book.request_count) :
    0 ≤ scoreBook book query ∧ scoreBook book query ≤ 11/10 := by
  simp only [scoreBook]
  obtain ⟨hb0, hb1⟩ := calculateSimilarity_mem_unit
    (normalizePersianArabicChars (toLowerList book.book_name))
    (normalizePersianArabicChars (toLowerList query))
  obtain ⟨ha0, ha1⟩ := calculateSimilarity_mem_unit
    (normalizePersianArabicChars (toLowerList book.author_name))
    (normalizePersianArabicChars (toLowerList query))
  have hboost0 : 0 ≤ min (book.request_count / 100) (1/10 : ℚ) :=
    le_min (by positivity) (by norm_num)
  have hboost1 : min (book.request_count / 100) (1/10 : ℚ) ≤ 1/10 :=
    min_le_right _ _
  unfold weightBookName weightAuthorName
  constructor <;> linarith

/-! ### The lexicographic comparator is total and transitive -/

theorem cmpChars_total : ∀ a b : List Char, cmpChars a b ≤ 0 ∨ cmpChars b a ≤ 0 := by
  intro a
  induction a with
  | nil =>
    intro b
    left
    cases b <;> simp [cmpChars]
  | cons x xs ih =>
    intro b
    cases b with
    | nil => right; simp [cmpChars]
    | cons y ys =>
      rcases lt_trichotomy x y with h | h | h
      · left
        simp [cmpChars, h]
      · subst h
        have hr := ih ys
        simpa [cmpChars, lt_irrefl] using hr
      · right
        simp [cmpChars, h]

theorem cmpChars_trans :
    ∀ a b c : List Char, cmpChars a b ≤ 0 → cmpChars b c ≤ 0 → cmpChars a c ≤ 0 := by
  intro a
  induction a with
  | nil =>
    intro b c _ _
    cases c <;> simp [cmpChars]
  | cons x xs ih =>
    intro b c h1 h2
    cases b with
    | nil => simp [cmpChars] at h1
    | cons y ys =>
      cases c with
      | nil => simp [cmpChars] at h2
      | cons z zs =>
        rcases lt_trichotomy x y with hxy | hxy | hxy
        · rcases lt_trichotomy y z with hyz | hyz | hyz
          · have hxz : x < z := lt_trans hxy hyz
            simp [cmpChars, hxz]
          · subst hyz
            simp [cmpChars, hxy]
          · exfalso
            simp [cmpChars, asymm hyz, hyz] at h2
        · subst hxy
          rcases lt_trichotomy x z with hxz | hxz | hxz
          · simp [cmpChars, hxz]
          · subst hxz
            simp only [cmpChars, lt_irrefl, if_false] at h1 h2 ⊢
            exact ih ys zs h1 h2
          · exfalso
            simp [cmpChars, asymm hxz, hxz] at h2
        · exfalso
          simp [cmpChars, asymm hxy, hxy] at h1

/-! ### The filter/sort/limit pipeline -/

theorem sliceTo_sublist (limit : Int) (l : List Book) :
    (sliceTo limit l).Sublist l := List.take_sublist _ _

theorem sortBooks_perm (lc : List Char → List Char → Int) (sortBy : String)
    (l : List Book) : (sortBooks lc sortBy l).Perm l := by
  unfold sortBooks
  split_ifs <;> exact List.perm_insertionSort _ _

/-- Every returned entry of the pipeline carries its computed score and
passed the threshold filter. -/
theorem searchPipeline_mem (lc : List Char → List Char → Int) (nq : List Char)
    (sortBy : String) (limit : Int) (allBooks : List Book) (b : Book)
    (hb : b ∈ searchPipeline lc nq sortBy limit allBooks) :
    b.score = scoreBook b nq ∧ fuzzyThreshold ≤ b.score := by
  simp only [searchPipeline] at hb
  have h1 := (sliceTo_sublist _ _).mem hb
  have h2 := ((sortBooks_perm lc sortBy _).mem_iff).mp h1
  rw [List.mem_filter] at h2
  obtain ⟨hmem, hdec⟩ := h2
  have hthr : fuzzyThreshold ≤ b.score := of_decide_eq_true hdec
  obtain ⟨b0, _, hb0⟩ := List.mem_map.mp hmem
  refine ⟨?_, hthr⟩
  rw [← hb0]
  rfl

theorem searchPipeline_ordered (lc : List Char → List Char → Int) (nq : List Char)
    (sortBy : String) (limit : Int) (allBooks : List Book)
    (htot : ∀ x y, lc x y ≤ 0 ∨ lc y x ≤ 0)
    (htrans : ∀ x y z, lc x y ≤ 0 → lc y z ≤ 0 → lc x z ≤ 0) :
    orderedAsRequested lc sortBy nq (searchPipeline lc nq sortBy limit allBooks) := by
  have hmemscore : ∀ b ∈ searchPipeline lc nq sortBy limit allBooks,
      b.score = scoreBook b nq :=
    fun b hb => (searchPipeline_mem lc nq sortBy limit allBooks b hb).1
  have key : searchPipeline lc nq sortBy limit allBooks =
      sliceTo limit (sortBooks lc sortBy
        ((allBooks.map (fun book => { book with score := scoreBook book nq })).filter
          (fun book => decide (fuzzyThreshold ≤ book.score)))) := rfl
  unfold orderedAsRequested
  split_ifs with hp hn
  · rw [key]
    refine List.Pairwise.sublist (sliceTo_sublist _ _) ?_
    unfold sortBooks
    rw [if_pos hp]
    haveI : IsTotal Book popLe := ⟨fun a b => le_total b.request_count a.request_count⟩
    haveI : IsTrans Book popLe := ⟨fun a b c h1 h2 => le_trans h2 h1⟩
    exact List.sorted_insertionSort popLe _
  · rw [key]
    refine List.Pairwise.sublist (sliceTo_sublist _ _) ?_
    unfold sortBooks
    rw [if_neg hp, if_pos hn]
    haveI : IsTotal Book (nameLe lc) := ⟨fun a b => htot a.book_name b.book_name⟩
    haveI : IsTrans Book (nameLe lc) :=
      ⟨fun a b c h1 h2 => htrans a.book_name b.book_name c.book_name h1 h2⟩
    exact List.sorted_insertionSort (nameLe lc) _
  · have hrel : (searchPipeline lc nq sortBy limit allBooks).Pairwise relLe := by
      rw [key]
      refine List.Pairwise.sublist (sliceTo_sublist _ _) ?_
      unfold sortBooks
      rw [if_neg hp, if_neg hn]
      haveI : IsTotal Book relLe := ⟨fun a b => le_total b.score a.score⟩
      haveI : IsTrans Book relLe := ⟨fun a b c h1 h2 => le_trans h2 h1⟩
      exact List.sorted_insertionSort relLe _
    refine List.Pairwise.imp_of_mem ?_ hrel
    intro a b ha hb hr
    rw [← hmemscore a ha, ← hmemscore b hb]
    exact hr

/-! ### Running `advancedSearch` along its cache-miss paths -/

/-- On a cache miss with a non-empty candidate list and no exact-ID
shortcut hit, `advancedSearch` runs the score/filter/sort/limit pipeline
and caches its output. -/
theorem advancedSearch_miss (lc : List Char → List Char → Int) (query : List Char)
    (options : SearchOptions) (allBooks : List Book) (cache : Cache)
    (hmiss : cacheGet (generateSearchKey (String.mk (normalizeQuery query)) options)
      cache = none)
    (hne : allBooks.isEmpty = false)
    (hshort : (if isAllDigits (normalizeQuery query) then
        allBooks.find? (fun book => book.id == natOfDigits (normalizeQuery query))
      else none) = none) :
    advancedSearch lc query options allBooks cache =
      (searchPipeline lc (normalizeQuery query) (getSortBy options) (getLimit options)
          allBooks,
        cacheSet (generateSearchKey (String.mk (normalizeQuery query)) options)
          (searchPipeline lc (normalizeQuery query) (getSortBy options) (getLimit options)
            allBooks)
          cache) := by
  simp only [advancedSearch, hmiss, hne, hshort]
  rfl

/-! ### The claims -/

/-- Claim C1: for every search that reaches the score/filter/sort stage
(cache miss, non-empty candidate list, not resolved by the exact-ID
shortcut), the returned sequence is ordered according to `options.sortBy`:
non-increasing `request_count` for `"popularity"`, non-decreasing
`book_name` under the locale comparator (assumed total and transitive, as
`localeCompare` collations are) for `"name"`, and non-increasing computed
scores for the default `"relevance"`. -/
theorem advancedSearch_sorted_as_requested (lc : List Char → List Char → Int)
    (query : List Char) (options : SearchOptions) (allBooks : List Book) (cache : Cache)
    (htot : ∀ x y, lc x y ≤ 0 ∨ lc y x ≤ 0)
    (htrans : ∀ x y z, lc x y ≤ 0 → lc y z ≤ 0 → lc x z ≤ 0)
    (hmiss : cacheGet (generateSearchKey (String.mk (normalizeQuery query)) options)
      cache = none)
    (hne : allBooks.isEmpty = false)
    (hshort : (if isAllDigits (normalizeQuery query) then
        allBooks.find? (fun book => book.id == natOfDigits (normalizeQuery query))
      else none) = none) :
    orderedAsRequested lc (getSortBy options) (normalizeQuery query)
      (advancedSearch lc query options allBooks cache).1 := by
  rw [advancedSearch_miss lc query options allBooks cache hmiss hne hshort]
  exact searchPipeline_ordered lc _ _ _ allBooks htot htrans

theorem advancedSearch_sorted_as_requested_witness :
    orderedAsRequested cmpChars (getSortBy [("sortBy", JVal.jstr "popularity")])
      (normalizeQuery ['ك'])
      ((advancedSearch cmpChars ['ك'] [("sortBy", JVal.jstr "popularity")]
        [⟨1, ['ك'], ['م'], "", 7, 0⟩, ⟨2, ['ل'], ['ن'], "", 3, 0⟩] []).1) :=
  advancedSearch_sorted_as_requested cmpChars ['ك'] [("sortBy", JVal.jstr "popularity")]
    [⟨1, ['ك'], ['م'], "", 7, 0⟩, ⟨2, ['ل'], ['ن'], "", 3, 0⟩] []
    cmpChars_total cmpChars_trans rfl rfl rfl

/-- Claim C2: for every search that reaches the score/filter/sort stage,
no entry whose computed score is strictly below the configured fuzzy
threshold appears in the returned sequence. -/
theorem advancedSearch_threshold_filter (lc : List Char → List Char → Int)
    (query : List Char) (options : SearchOptions) (allBooks : List Book) (cache : Cache)
    (hmiss : cacheGet (generateSearchKey (String.mk (normalizeQuery query)) options)
      cache = none)
    (hne : allBooks.isEmpty = false)
    (hshort : (if isAllDigits (normalizeQuery query) then
        allBooks.find? (fun book => book.id == natOfDigits (normalizeQuery query))
      else none) = none) :
    (advancedSearch lc query options allBooks cache).1.Forall
      (fun b => fuzzyThreshold ≤ scoreBook b (normalizeQuery query)) := by
  rw [List.forall_iff_forall_mem]
  intro b hb
  rw [advancedSearch_miss lc query options allBooks cache hmiss hne hshort] at hb
  obtain ⟨hs, hthr⟩ := searchPipeline_mem lc _ _ _ allBooks b hb
  rwa [hs] at hthr

theorem advancedSearch_threshold_filter_witness :
    (advancedSearch cmpChars ['ك'] [] [⟨1, ['ك'], ['م'], "", 0, 0⟩] []).1.Forall
      (fun b => fuzzyThreshold ≤ scoreBook b (normalizeQuery ['ك'])) :=
  advancedSearch_threshold_filter cmpChars ['ك'] [] [⟨1, ['ك'], ['م'], "", 0, 0⟩] []
    rfl rfl rfl

/-- Claim C3: on a cache miss whose normalized query is all ASCII digits,
if the candidate list contains an entry whose identifier equals that
integer, `advancedSearch` returns exactly that single entry — bypassing
scoring, threshold, and sort — and stores the singleton result in the
cache under the computed key. -/
theorem advancedSearch_exact_id (lc : List Char → List Char → Int)
    (query : List Char) (options : SearchOptions) (allBooks : List Book) (cache : Cache)
    (hmiss : cacheGet (generateSearchKey (String.mk (normalizeQuery query)) options)
      cache = none)
    (hdig : isAllDigits (normalizeQuery query) = true)
    (hex : ∃ b ∈ allBooks, b.id = natOfDigits (normalizeQuery query)) :
    ∃ b ∈ allBooks, b.id = natOfDigits (normalizeQuery query) ∧
      advancedSearch lc query options allBooks cache =
        ([b], cacheSet (generateSearchKey (String.mk (normalizeQuery query)) options)
          [b] cache) := by
  have hfindSome :
      (allBooks.find? (fun book => book.id == natOfDigits (normalizeQuery query))).isSome := by
    rw [List.find?_isSome]
    obtain ⟨b, hbmem, hbid⟩ := hex
    exact ⟨b, hbmem, by simp [hbid]⟩
  obtain ⟨b, hfind⟩ := Option.isSome_iff_exists.mp hfindSome
  refine ⟨b, List.mem_of_find?_eq_some hfind, ?_, ?_⟩
  · have hp := List.find?_some hfind
    simpa using hp
  · have hne : allBooks.isEmpty = false := by
      cases allBooks with
      | nil => simp [List.find?] at hfind
      | cons _ _ => rfl
    simp only [advancedSearch, hmiss, hne, hdig, hfind]
    rfl

theorem advancedSearch_exact_id_witness :
    ∃ b ∈ [(⟨42, ['ب'], ['م'], "", 0, 0⟩ : Book)],
      b.id = natOfDigits (normalizeQuery ['4', '2']) ∧
      advancedSearch cmpChars ['4', '2'] [] [⟨42, ['ب'], ['م'], "", 0, 0⟩] [] =
        ([b], cacheSet (generateSearchKey (String.mk (normalizeQuery ['4', '2'])) [])
          [b] []) :=
  advancedSearch_exact_id cmpChars ['4', '2'] [] [⟨42, ['ب'], ['م'], "", 0, 0⟩] []
    rfl rfl ⟨⟨42, ['ب'], ['م'], "", 0, 0⟩, by simp, rfl⟩

/-- Claim C4 (counterexample): with an empty candidate list,
`advancedSearch` returns the empty result but leaves the cache without any
entry for the computed key — the claimed cache write does not happen. -/
theorem advancedSearch_empty_skips_cache_cex :
    advancedSearch cmpChars ['ب'] [] [] [] = ([], []) ∧
      cacheGet (generateSearchKey (String.mk (normalizeQuery ['ب'])) [])
        (advancedSearch cmpChars ['ب'] [] [] []).2 = none :=
  ⟨rfl, rfl⟩

/-- Claim C4 (amended): on a cache miss where the storage fetch returns no
candidate entries, `advancedSearch` returns the empty sequence and leaves
the cache unchanged — in particular it does not write an empty entry for
the computed key. -/
theorem advancedSearch_empty_returns_uncached (lc : List Char → List Char → Int)
    (query : List Char) (options : SearchOptions) (cache : Cache)
    (hmiss : cacheGet (generateSearchKey (String.mk (normalizeQuery query)) options)
      cache = none) :
    advancedSearch lc query options [] cache = ([], cache) := by
  simp only [advancedSearch, hmiss]
  rfl

theorem advancedSearch_empty_returns_uncached_witness :
    advancedSearch cmpChars ['ا'] [] [] [] = ([], []) :=
  advancedSearch_empty_returns_uncached cmpChars ['ا'] [] [] rfl

/-- Claim C5 (counterexample): two options objects holding exactly the
same fields with the same values, written in different orders, produce
different cache keys — the serialization is `JSON.stringify` in
field-insertion order, not a canonical stable-ordered form. -/
theorem generateSearchKey_order_sensitive_cex :
    List.Perm
        ([("category", JVal.jstr "a"), ("sortBy", JVal.jstr "name")] : SearchOptions)
        [("sortBy", JVal.jstr "name"), ("category", JVal.jstr "a")] ∧
      generateSearchKey "q" [("category", JVal.jstr "a"), ("sortBy", JVal.jstr "name")] ≠
        generateSearchKey "q" [("sortBy", JVal.jstr "name"), ("category", JVal.jstr "a")] := by
  constructor
  · exact List.Perm.swap _ _ _
  · decide

/-- Claim C5 (amended): the cache key is a pure function of the normalized
query and the serialized options — equal serializations yield equal keys —
and has the form `"search:" + query + ":" + serialization(options)`; the
serialization is insertion-order-sensitive, so only option objects written
with the same field order are guaranteed the same key. -/
theorem generateSearchKey_deterministic (q : String) (o1 o2 : SearchOptions)
    (h : jsonStringify o1 = jsonStringify o2) :
    generateSearchKey q o1 = generateSearchKey q o2 ∧
      generateSearchKey q o1 = "search:" ++ q ++ ":" ++ jsonStringify o1 := by
  constructor
  · simp [generateSearchKey, h]
  · rfl

theorem generateSearchKey_deterministic_witness :
    generateSearchKey "12" [("limit", JVal.jnum 5)] =
        generateSearchKey "12" [("limit", JVal.jnum 5)] ∧
      generateSearchKey "12" [("limit", JVal.jnum 5)] =
        "search:" ++ "12" ++ ":" ++ jsonStringify [("limit", JVal.jnum 5)] :=
  generateSearchKey_deterministic "12" [("limit", JVal.jnum 5)]
    [("limit", JVal.jnum 5)] rfl

/-- Claim C6 (code evaluation): the scoring stage wraps no per-candidate
exception handling — with one malformed record (missing `book_name`) in
the candidate list the whole stage aborts with the `TypeError` instead of
treating that candidate as score zero, while the same stage without the
malformed record succeeds. -/
theorem scoreStage_error_propagates :
    scoreStage [⟨8, some ['ن'], some ['م'], 3⟩, ⟨7, none, some ['م'], 3⟩] ['ن'] =
        Except.error "TypeError: book_name is undefined" ∧
      ∃ s, scoreStage [⟨8, some ['ن'], some ['م'], 3⟩] ['ن'] =
        Except.ok [(⟨8, some ['ن'], some ['م'], 3⟩, s)] :=
  ⟨rfl, ⟨_, rfl⟩⟩

theorem scoreBook_bounds_witness :
    (0 : ℚ) ≤ (⟨1, ['ك'], ['م'], "", 0, 0⟩ : Book).request_count ∧
      (0 ≤ scoreBook ⟨1, ['ك'], ['م'], "", 0, 0⟩ ['ك'] ∧
        scoreBook ⟨1, ['ك'], ['م'], "", 0, 0⟩ ['ك'] ≤ 11/10) :=
  ⟨le_refl 0, scoreBook_bounds ⟨1, ['ك'], ['م'], "", 0, 0⟩ ['ك'] (le_refl 0)⟩

/-- Claim C9 (counterexample): with one hit and one miss counted,
`getStats` returns the hit rate as the percentage string `"50.00%"`, and
the number the code computes before formatting is 50 — not the ratio
`hits/(hits+misses) = 1/2` that the claim states. -/
theorem getStats_hitRate_cex :
    (getStats 1 1 2).hitRate = "50.00%" ∧ hitRateValue 1 1 = 50 ∧
      hitRateValue 1 1 ≠ (1 : ℚ) / (1 + 1) := by
  have hv : hitRateValue 1 1 = 50 := by norm_num [hitRateValue]
  refine ⟨?_, hv, by rw [hv]; norm_num⟩
  show (if 0 < 1 + 1 then toFixedTwo (hitRateValue 1 1) ++ "%" else "0%") = "50.00%"
  rw [if_pos (by norm_num), hv]
  have hr : round ((50 : ℚ) * 100) = 5000 := by
    rw [show ((50 : ℚ) * 100) = ((5000 : ℤ) : ℚ) by norm_num, round_intCast]
  show toFixedTwo 50 ++ "%" = "50.00%"
  simp only [toFixedTwo, hr]
  decide

/-- Claim C9 (amended): `getStats` returns the hit and miss counters and
the key count unchanged, and the hit rate as a percentage string — the
ratio `hits/(hits+misses)` times 100 rendered to two decimals with a
percent sign — or the string `"0%"` when no get has been counted. -/
theorem getStats_spec (h m k : Nat) :
    (getStats h m k).hits = h ∧ (getStats h m k).misses = m ∧
      (getStats h m k).keys = k ∧
      (getStats h m k).hitRate =
        (if 0 < h + m then
          toFixedTwo (100 * ((h : ℚ) / ((h : ℚ) + (m : ℚ)))) ++ "%"
        else "0%") := by
  refine ⟨rfl, rfl, rfl, ?_⟩
  unfold getStats hitRateValue
  rw [mul_comm ((h : ℚ) / ((h : ℚ) + (m : ℚ))) 100]

